import Mathlib

/-!
Verification of the OCC option-symbol codec and columnar store (occ.py).

Shallow embedding conventions:
* Python strings are modelled as `List Char`; slicing `s[a:b]` becomes
  `(s.drop a).take (b - a)`, `s[a:]` becomes `s.drop a`.
* Python float values are rationals together with an explicit
  round-to-nearest-even operation `flBits` (binary64 = `fl64`, 52
  fraction bits, used for `float()`, division and multiplication;
  binary32 = `fl32`, 23 fraction bits, applied when a strike is stored
  into the `f4` record field).  Exponents are unbounded: overflow,
  infinities, NaN and subnormal behaviour are not modelled — none occur
  in the value ranges this program manipulates.
* Fallible code returns `Except PyErr _`; the error constructors record
  which Python exception class would be raised.
* External library calls (`pandas.Timestamp.strptime`, `float`,
  `strftime`, numpy elementwise comparison, numpy structured-scalar
  indexing) are modelled by explicit Lean functions, each documented at
  its definition.
-/

/-- Python exception outcomes relevant to occ.py.  `indexError` stands for
`IndexError` (out-of-range subscript), `valueError` for `ValueError`
(unparseable date or float, the spec calls it `FormatError`), and
`recordAsString` for the exception raised when a numpy structured record
is subscripted as if it were a 21-character string. -/
inductive PyErr where
  | indexError
  | valueError
  | recordAsString
deriving DecidableEq

/-- A calendar date at day granularity, as stored in the `M8[D]` field of
the record dtype. -/
structure Date where
  year : ℕ
  month : ℕ
  day : ℕ
deriving DecidableEq

/-- Chronological key of a date: for dates with `month < 100` and
`day < 100` (all dates produced by the parser) the numeric key
`year * 10000 + month * 100 + day` orders dates exactly as numpy orders
the underlying `datetime64[D]` values. -/
def Date.key (d : Date) : ℕ := d.year * 10000 + d.month * 100 + d.day

/-- One decoded OCC record, an element of the structured numpy dtype
`[('symbol','U6'),('expiry','M8[D]'),('otype','?'),('strike','f4')]`.
The strike is the rational value of the Python float: binary64 as the
codec produces it, narrowed by `fl32` when stored into the array's `f4`
field. -/
structure OccRecord where
  symbol : List Char
  expiry : Date
  is_put : Bool
  strike : ℚ
deriving DecidableEq

/-- Numeric value of a decimal digit character (`'0'` ↦ 0, …, `'9'` ↦ 9). -/
def dval (c : Char) : ℕ := c.toNat - 48

/-- Decidable test for an ASCII decimal digit (the digits accepted by the
`%y%m%d` pattern of `strptime` and by `float` on the inputs occ.py
feeds them). -/
def isDig (c : Char) : Bool :=
  c == '0' || c == '1' || c == '2' || c == '3' || c == '4' ||
  c == '5' || c == '6' || c == '7' || c == '8' || c == '9'

/-- Value of a decimal digit string read left to right (leading zeros
allowed), e.g. `natVal "00125000" = 125000`. -/
def natVal (ds : List Char) : ℕ := ds.foldl (fun a c => 10 * a + dval c) 0

/-- The decimal digit character for a value below ten. -/
def digitChar : ℕ → Char
  | 0 => '0' | 1 => '1' | 2 => '2' | 3 => '3' | 4 => '4'
  | 5 => '5' | 6 => '6' | 7 => '7' | 8 => '8' | 9 => '9'
  | _ => '0'

/-- Fuelled decimal rendering of a natural number (structural recursion so
that concrete values reduce inside the kernel). -/
def natStrAux : ℕ → ℕ → List Char
  | 0, _ => []
  | fuel + 1, n =>
    if n < 10 then [digitChar n]
    else natStrAux fuel (n / 10) ++ [digitChar (n % 10)]

/-- Decimal rendering of a natural number, as Python `str` renders it
(no leading zeros, `0` ↦ `"0"`). -/
def natStr (n : ℕ) : List Char := natStrAux (n + 1) n

/-- Python `str` on an `int`: decimal digits, preceded by `'-'` when
negative. -/
def pyStr (i : ℤ) : List Char :=
  if i < 0 then '-' :: natStr i.natAbs else natStr i.toNat

/-- Python `str.zfill(w)`: left-pad with `'0'` up to width `w`, keeping a
leading sign character in front of the padding. -/
def pyZfill (w : ℕ) (s : List Char) : List Char :=
  if w ≤ s.length then s
  else
    match s with
    | [] => List.replicate w '0'
    | c :: r =>
      if c = '-' ∨ c = '+' then
        c :: (List.replicate (w - (c :: r).length) '0' ++ r)
      else
        List.replicate (w - (c :: r).length) '0' ++ c :: r

/-- Python `str.ljust(w)`: right-pad with spaces up to width `w`; a string
already at least `w` long is returned unchanged. -/
def pyLjust (w : ℕ) (s : List Char) : List Char :=
  s ++ List.replicate (w - s.length) ' '

/-- Python `str.rstrip()`: remove trailing whitespace characters. -/
def pyRstrip (s : List Char) : List Char :=
  (s.reverse.dropWhile Char.isWhitespace).reverse

/-- Python `int()` applied to a float value: truncation toward zero. -/
def pyInt (q : ℚ) : ℤ :=
  if q < 0 then -((-q).num / ((-q).den : ℤ)) else q.num / (q.den : ℤ)

/-- Round a rational to the nearest integer, ties to even (the IEEE 754
default rounding used by Python floats). -/
def roundNE (x : ℚ) : ℤ :=
  if x - (⌊x⌋ : ℚ) < 1 / 2 then ⌊x⌋
  else if 1 / 2 < x - (⌊x⌋ : ℚ) then ⌊x⌋ + 1
  else if ⌊x⌋ % 2 = 0 then ⌊x⌋ else ⌊x⌋ + 1

/-- Fuelled upward scan for the binade exponent: raise `e` (with `pw = 2 ^ e`
maintained) while `2 ^ (e + 1) ≤ a`. -/
def findExpUp : ℕ → ℚ → ℤ → ℚ → ℤ
  | 0, _, e, _ => e
  | fuel + 1, a, e, pw => if 2 * pw ≤ a then findExpUp fuel a (e + 1) (2 * pw) else e

/-- Fuelled downward scan for the binade exponent: lower `e` (with
`pw = 2 ^ e` maintained) while `a < 2 ^ e`. -/
def findExpDown : ℕ → ℚ → ℤ → ℚ → ℤ
  | 0, _, e, _ => e
  | fuel + 1, a, e, pw => if a < pw then findExpDown fuel a (e - 1) (pw / 2) else e

/-- Binade exponent of a positive rational: the `e` with `2 ^ e ≤ a < 2 ^ (e + 1)`
(fuel 1200 covers every magnitude this program can produce). -/
def findExp (a : ℚ) : ℤ :=
  if 1 ≤ a then findExpUp 1200 a 0 1 else findExpDown 1200 a 0 1

/-- Round a positive rational to a floating-point significand of `p`
fraction bits: scale into the binade, round to nearest even, scale back. -/
def flBitsPos (p : ℕ) (a : ℚ) : ℚ :=
  (roundNE (a / 2 ^ (findExp a - (p : ℤ))) : ℚ) * 2 ^ (findExp a - (p : ℤ))

/-- Round-to-nearest-even at `p` fraction bits of significand, the rounding
a binary floating-point format applies to an exact real result. -/
def flBits (p : ℕ) (q : ℚ) : ℚ :=
  if q = 0 then 0
  else if 0 < q then flBitsPos p q
  else -flBitsPos p (-q)

/-- IEEE 754 binary64 rounding (Python float arithmetic): 52 fraction
bits. -/
def fl64 (q : ℚ) : ℚ := flBits 52 q

/-- IEEE 754 binary32 rounding (the numpy `f4` strike field): 23 fraction
bits. -/
def fl32 (q : ℚ) : ℚ := flBits 23 q

/-- Gregorian leap-year test, as used by the host date library. -/
def isLeapYear (y : ℕ) : Bool :=
  y % 4 == 0 && (y % 100 != 0 || y % 400 == 0)

/-- Number of days in a month of a given year. -/
def daysInMonth (y m : ℕ) : ℕ :=
  if m = 2 then (if isLeapYear y then 29 else 28)
  else if m = 4 ∨ m = 6 ∨ m = 9 ∨ m = 11 then 30 else 31

/-- Models `pd.Timestamp.strptime(f, '%y%m%d')` on the six-character date
field: three two-digit groups, the two-digit year resolved with the
CPython pivot (00–68 ↦ 2000s, 69–99 ↦ 1900s), month and day validated
against the calendar; `none` models the `ValueError` raised on any
mismatch. -/
def parseDate6 (f : List Char) : Option Date :=
  if f.length = 6 ∧ f.all isDig then
    let yy := natVal (f.take 2)
    let mm := natVal ((f.drop 2).take 2)
    let dd := natVal (f.drop 4)
    let y := if yy ≤ 68 then 2000 + yy else 1900 + yy
    if 1 ≤ mm ∧ mm ≤ 12 ∧ 1 ≤ dd ∧ dd ≤ daysInMonth y mm then
      some ⟨y, mm, dd⟩
    else none
  else none

/-- Exponent part of a Python float literal (after the `e`/`E`). -/
def pyExp (m : ℚ) (s : List Char) : Option ℚ :=
  match s with
  | '+' :: r => if r ≠ [] ∧ r.all isDig then some (m * 10 ^ natVal r) else none
  | '-' :: r => if r ≠ [] ∧ r.all isDig then some (m / 10 ^ natVal r) else none
  | r => if r ≠ [] ∧ r.all isDig then some (m * 10 ^ natVal r) else none

/-- Unsigned part of a Python float literal: integer digits, optional
fraction, optional exponent. -/
def pyFloatCore (s : List Char) : Option ℚ :=
  let ip := s.takeWhile isDig
  let r1 := s.dropWhile isDig
  match r1 with
  | [] => if ip = [] then none else some ((natVal ip : ℚ))
  | '.' :: r =>
    let fp := r.takeWhile isDig
    let r2 := r.dropWhile isDig
    if ip = [] ∧ fp = [] then none
    else
      let m : ℚ := (natVal ip : ℚ) + (natVal fp : ℚ) / 10 ^ fp.length
      match r2 with
      | [] => some m
      | 'e' :: r3 => pyExp m r3
      | 'E' :: r3 => pyExp m r3
      | _ => none
  | 'e' :: r3 => if ip = [] then none else pyExp ((natVal ip : ℚ)) r3
  | 'E' :: r3 => if ip = [] then none else pyExp ((natVal ip : ℚ)) r3
  | _ => none

/-- Exact rational value of a Python float literal on the decimal subset
(optional sign, digits, optional fraction and exponent); `none` models
the `ValueError` on anything else.  Not modelled: `inf`/`nan` spellings,
digit-group underscores and surrounding whitespace, none of which occur
in the strings this program feeds to `float()`. -/
def pyFloatRat (s : List Char) : Option ℚ :=
  match s with
  | [] => none
  | c :: r =>
    if c = '+' then pyFloatCore r
    else if c = '-' then (pyFloatCore r).map (fun q => -q)
    else pyFloatCore (c :: r)

/-- Models Python `float()`: the exact value of the accepted literal,
correctly rounded to binary64. -/
def pyFloat (s : List Char) : Option ℚ :=
  (pyFloatRat s).map fl64

/-- `_to_otype(b)`: `'P' if b else 'C'`. -/
def _to_otype (b : Bool) : Char := if b then 'P' else 'C'

/-- `_pad_symbol(symbol)`: `symbol.ljust(6)`. -/
def _pad_symbol (symbol : List Char) : List Char := pyLjust 6 symbol

/-- `_strike_to_str(strike)`: `str(int(strike * 1000)).zfill(8)` — the
product is rounded to binary64 before `int()` truncates it. -/
def _strike_to_str (strike : ℚ) : List Char :=
  pyZfill 8 (pyStr (pyInt (fl64 (strike * 1000))))

/-- Models `pd.to_datetime(expiry).strftime('%y%m%d')`: two-digit
zero-padded year-of-century, month and day. -/
def Date.strftimeYMD (d : Date) : List Char :=
  pyZfill 2 (natStr (d.year % 100)) ++ pyZfill 2 (natStr d.month) ++
  pyZfill 2 (natStr d.day)

/-- `_to_occ_str(symbol, expiry, otype, strike)`: concatenation of the
padded symbol, the formatted date, the option-type character and the
zero-filled strike field. -/
def _to_occ_str (symbol : List Char) (expiry : Date) (otype : Bool)
    (strike : ℚ) : List Char :=
  _pad_symbol symbol ++ expiry.strftimeYMD ++ [_to_otype otype] ++
  _strike_to_str strike

/-- `_occ_to_tuple(s)`: positional field extraction
`s[:6], s[6:12], s[12], s[13:]` (so `s[12]` raises `IndexError` when the
string is shorter than 13 characters — there is no length-21 check),
then `symbol.rstrip()`, strict `%y%m%d` date parsing, the put flag
`s[12] == 'P'`, and `float(s[13:]) / 1000` with the division rounded to
binary64. -/
def _occ_to_tuple (s : List Char) : Except PyErr OccRecord :=
  match (s.drop 12).head? with
  | none => .error .indexError
  | some c =>
    match parseDate6 ((s.drop 6).take 6) with
    | none => .error .valueError
    | some d =>
      match pyFloat (s.drop 13) with
      | none => .error .valueError
      | some q => .ok ⟨pyRstrip (s.take 6), d, c == 'P', fl64 (q / 1000)⟩

/-- An element of the value sequence handed to `OccArray.__init__`: either a
raw OCC string (the intended use) or an already-decoded numpy structured
record, which is what `copy`, `_concat_same_type` and slice indexing pass
back into the constructor. -/
inductive PyVal where
  | str : List Char → PyVal
  | record : OccRecord → PyVal
deriving DecidableEq

/-- `_occ_to_tuple` applied through Python duck typing.  On a string it is
the codec; on a numpy structured record (4 fields) the positional
subscript `s[12]` is out of range for the scalar, so the call raises
instead of decoding (modelled by `recordAsString`). -/
def _occ_to_tuple_dyn : PyVal → Except PyErr OccRecord
  | .str s => _occ_to_tuple s
  | .record _ => .error .recordAsString

/-- `_occ_to_tuples(values)`: decode every element; the first failure
aborts the whole batch (a Python list comprehension). -/
def _occ_to_tuples (values : List PyVal) : Except PyErr (List OccRecord) :=
  values.mapM _occ_to_tuple_dyn

/-- `_to_occ_array(values)`: bulk decode into the packed record buffer;
`np.asarray(..., dtype=_record_type)` narrows each binary64 strike to
the record dtype's `f4` (binary32) field (`np.atleast_1d` is the
identity on the 1-d buffers modelled here). -/
def _to_occ_array (values : List PyVal) : Except PyErr (List OccRecord) :=
  (_occ_to_tuples values).map
    (fun rs => rs.map (fun r => { r with strike := fl32 r.strike }))

/-- The packed columnar store: `OccArray.data`, a buffer of decoded
records. -/
structure OccArray where
  data : List OccRecord
deriving DecidableEq

/-- Itemsize of the packed record dtype
`[('symbol','U6'),('expiry','M8[D]'),('otype','?'),('strike','f4')]`:
6 × 4 bytes of UCS-4 symbol + 8 bytes of datetime64 + 1 bool byte +
4 float32 bytes. -/
def OccArray._itemsize : ℕ := 37

/-- `OccArray.__init__(values)`: always re-decodes its argument through
`_to_occ_array`. -/
def OccArray.init (values : List PyVal) : Except PyErr OccArray :=
  (_to_occ_array values).map OccArray.mk

/-- `OccArray._from_sequence(scalars)`. -/
def OccArray._from_sequence (scalars : List PyVal) : Except PyErr OccArray :=
  OccArray.init scalars

/-- `OccArray.nbytes`: fixed itemsize times length. -/
def OccArray.nbytes (a : OccArray) : ℕ := OccArray._itemsize * a.data.length

/-- `OccArray.__getitem__` with a single integer index: the structured
scalar is re-encoded to the canonical string via `_to_occ_str`. -/
def OccArray.getScalar (a : OccArray) (i : ℕ) : Except PyErr (List Char) :=
  match a.data.get? i with
  | none => .error .indexError
  | some r => .ok (_to_occ_str r.symbol r.expiry r.is_put r.strike)

/-- `OccArray.__getitem__` with a slice: the sliced record buffer is fed
back through `type(self)(result)`, i.e. through `OccArray.init`. -/
def OccArray.getSlice (a : OccArray) (i j : ℕ) : Except PyErr OccArray :=
  OccArray.init (((a.data.drop i).take (j - i)).map PyVal.record)

/-- The epoch date 1970-01-01, the value numpy parses from the literal
string in `isna`. -/
def epochDate : Date := ⟨1970, 1, 1⟩

/-- Models the numpy elementwise comparison `occs['symbol'] == 0`: a
fixed-width unicode field and a Python integer have no common comparison
dtype, so the comparison yields `False` for every element (older numpy
collapses it to a scalar `False` with a `FutureWarning`; either way no
element ever compares equal). -/
def npEqStrInt (_s : List Char) (_n : ℤ) : Bool := false

/-- `OccArray.isna()`:
`(symbol == 0) & (expiry == '1970-01-01') & (otype == 0) & (strike == 0)`
per element. -/
def OccArray.isna (a : OccArray) : List Bool :=
  a.data.map (fun r =>
    npEqStrInt r.symbol 0 && decide (r.expiry = epochDate) &&
    decide (r.is_put = false) && decide (r.strike = 0))

/-- `OccArray.copy(deep=False)`: `type(self)(self.data.copy())` — the
copied record buffer goes back through `OccArray.init` regardless of the
`deep` flag. -/
def OccArray.copy (a : OccArray) (_deep : Bool) : Except PyErr OccArray :=
  OccArray.init (a.data.map PyVal.record)

/-- `OccArray._concat_same_type(to_concat)`:
`cls(np.concatenate([array.data for array in to_concat]))`. -/
def OccArray._concat_same_type (to_concat : List OccArray) :
    Except PyErr OccArray :=
  OccArray.init (((to_concat.map (fun x => x.data)).flatten).map PyVal.record)

/-- `OccArray.is_call`: `otype == 0` per element. -/
def OccArray.is_call (a : OccArray) : List Bool :=
  a.data.map (fun r => decide (r.is_put = false))

/-- `OccArray.is_put`: `otype == 1` per element. -/
def OccArray.is_put (a : OccArray) : List Bool :=
  a.data.map (fun r => decide (r.is_put = true))

/-- Chronological strict comparison of two dates, as numpy compares
`datetime64[D]` values (for the calendar-valid dates stored by the
decoder the positional key agrees with days-since-epoch order). -/
def dateLtB (a b : Date) : Bool := decide (a.key < b.key)

/-- `OccArray.is_expired(date=None)`: default the reference date to
`pd.Timestamp.today()` (dates are always truthy), then `expiry < date`
per element, strict. -/
def OccArray.is_expired (a : OccArray) (date : Option Date) (today : Date) :
    List Bool :=
  let d := match date with | none => today | some x => x
  a.data.map (fun r => dateLtB r.expiry d)

/-- Element dtypes a pandas Series can carry in this model. -/
inductive PdDtype where
  | occType
  | int64
  | float64
deriving DecidableEq

/-- The labeled sequence the accessor shim wraps: values, index, name and
element dtype. -/
structure PdSeries where
  values : List PyVal
  index : List ℤ
  name : Option (List Char)
  dtype : PdDtype
deriving DecidableEq

/-- The accessor object: the underlying values, index and name captured at
construction. -/
structure OccAccessor where
  _data : List PyVal
  _index : List ℤ
  _name : Option (List Char)
deriving DecidableEq

/-- `OccAccessor._validate(obj)`: `return isinstance(obj.dtype, OccType)` —
it returns the boolean instead of raising. -/
def OccAccessor._validate (obj : PdSeries) : Bool :=
  obj.dtype == PdDtype.occType

/-- `OccAccessor.__init__(obj)`: calls `_validate(obj)` and discards the
returned boolean, then captures `obj.values`, `obj.index`, `obj.name`;
no exception is ever raised. -/
def OccAccessor.ofSeries (obj : PdSeries) : Except PyErr OccAccessor :=
  let _ := OccAccessor._validate obj
  .ok ⟨obj.values, obj.index, obj.name⟩

/-- A read/query operation on a store, used to state that none of them
mutates the operated-on buffer. -/
inductive ReadOp where
  | getScalar (i : ℕ)
  | getSlice (i j : ℕ)
  | isnaOp
  | isCallOp
  | isPutOp
  | isExpiredOp (asOf : Option Date) (today : Date)
  | nbytesOp
  | copyOp (deep : Bool)
  | concatWith (others : List OccArray)

/-- Result of a read/query operation. -/
inductive OpResult where
  | strRes : Except PyErr (List Char) → OpResult
  | storeRes : Except PyErr OccArray → OpResult
  | boolsRes : List Bool → OpResult
  | natRes : ℕ → OpResult

/-- A method call on `self`: the result paired with the `self` buffer as it
stands after the call.  Each arm is the translation of the corresponding
method body; no body assigns to `self.data`, which is what the frame
theorem below makes explicit. -/
def OccArray.runOp (a : OccArray) : ReadOp → OpResult × OccArray
  | .getScalar i => (.strRes (a.getScalar i), a)
  | .getSlice i j => (.storeRes (a.getSlice i j), a)
  | .isnaOp => (.boolsRes a.isna, a)
  | .isCallOp => (.boolsRes a.is_call, a)
  | .isPutOp => (.boolsRes a.is_put, a)
  | .isExpiredOp asOf today => (.boolsRes (a.is_expired asOf today), a)
  | .nbytesOp => (.natRes a.nbytes, a)
  | .copyOp deep => (.storeRes (a.copy deep), a)
  | .concatWith others => (.storeRes (OccArray._concat_same_type (a :: others)), a)

deriving instance DecidableEq for Except

/-! Digit-string lemmas -/

lemma isDig_cases {c : Char} (h : isDig c = true) :
    c = '0' ∨ c = '1' ∨ c = '2' ∨ c = '3' ∨ c = '4' ∨
    c = '5' ∨ c = '6' ∨ c = '7' ∨ c = '8' ∨ c = '9' := by
  have h2 := h
  simp [isDig] at h2
  tauto

lemma dval_lt_ten {c : Char} (h : isDig c = true) : dval c < 10 := by
  rcases isDig_cases h with h|h|h|h|h|h|h|h|h|h <;> subst h <;> decide

lemma isDig_not_sign {c : Char} (h : isDig c = true) : ¬(c = '-' ∨ c = '+') := by
  rcases isDig_cases h with h|h|h|h|h|h|h|h|h|h <;> subst h <;> decide

lemma dval_inj {c d : Char} (hc : isDig c = true) (hd : isDig d = true)
    (h : dval c = dval d) : c = d := by
  rcases isDig_cases hc with h1|h1|h1|h1|h1|h1|h1|h1|h1|h1 <;>
    rcases isDig_cases hd with h2|h2|h2|h2|h2|h2|h2|h2|h2|h2 <;>
    subst h1 <;> subst h2 <;> revert h <;> decide

lemma natVal_foldl (ds : List Char) (a : ℕ) :
    ds.foldl (fun x c => 10 * x + dval c) a = a * 10 ^ ds.length + natVal ds := by
  induction ds generalizing a with
  | nil => simp [natVal]
  | cons c t ih =>
    have hv : natVal (c :: t) = dval c * 10 ^ t.length + natVal t := by
      show List.foldl _ (10 * 0 + dval c) t = _
      rw [show 10 * 0 + dval c = dval c by omega, ih (dval c)]
    simp only [List.foldl_cons, List.length_cons, hv, ih (10 * a + dval c)]
    ring

lemma natVal_cons (c : Char) (t : List Char) :
    natVal (c :: t) = dval c * 10 ^ t.length + natVal t := by
  show List.foldl _ (10 * 0 + dval c) t = _
  rw [show 10 * 0 + dval c = dval c by omega, natVal_foldl t (dval c)]

lemma natVal_append (xs ys : List Char) :
    natVal (xs ++ ys) = natVal xs * 10 ^ ys.length + natVal ys := by
  show List.foldl _ 0 (xs ++ ys) = _
  rw [List.foldl_append]
  exact natVal_foldl ys (natVal xs)

lemma natVal_lt (ds : List Char) (h : ∀ c ∈ ds, isDig c = true) :
    natVal ds < 10 ^ ds.length := by
  induction ds with
  | nil => simp [natVal]
  | cons c t ih =>
    have h1 : dval c < 10 := dval_lt_ten (h c (by simp))
    have h2 : natVal t < 10 ^ t.length := ih (fun x hx => h x (by simp [hx]))
    have h3 : dval c * 10 ^ t.length + natVal t < (dval c + 1) * 10 ^ t.length := by
      have := Nat.add_lt_add_left h2 (dval c * 10 ^ t.length)
      calc dval c * 10 ^ t.length + natVal t
        < dval c * 10 ^ t.length + 10 ^ t.length := this
      _ = (dval c + 1) * 10 ^ t.length := by ring
    have h4 : (dval c + 1) * 10 ^ t.length ≤ 10 * 10 ^ t.length :=
      Nat.mul_le_mul_right _ (by omega)
    rw [natVal_cons, List.length_cons, pow_succ]
    calc dval c * 10 ^ t.length + natVal t < (dval c + 1) * 10 ^ t.length := h3
    _ ≤ 10 * 10 ^ t.length := h4
    _ = 10 ^ t.length * 10 := by ring

lemma natVal_replicate_zero (k : ℕ) : natVal (List.replicate k '0') = 0 := by
  induction k with
  | zero => simp [natVal]
  | succ k ih =>
    rw [List.replicate_succ, natVal_cons, ih]
    simp [dval]

/-! Decimal rendering lemmas -/

lemma isDig_digitChar {d : ℕ} (h : d < 10) : isDig (digitChar d) = true := by
  interval_cases d <;> decide

lemma dval_digitChar {d : ℕ} (h : d < 10) : dval (digitChar d) = d := by
  interval_cases d <;> decide

lemma natStrAux_congr : ∀ f g n : ℕ, n < f → n < g → natStrAux f n = natStrAux g n := by
  intro f
  induction f with
  | zero => intro g n hf; omega
  | succ f ih =>
    intro g n hf hg
    cases g with
    | zero => omega
    | succ g =>
      simp only [natStrAux]
      by_cases h10 : n < 10
      · simp [h10]
      · have hdiv : n / 10 < n := Nat.div_lt_self (by omega) (by omega)
        simp only [h10, if_false]
        rw [ih g (n / 10) (by omega) (by omega)]

lemma natStr_eq (n : ℕ) :
    natStr n = if n < 10 then [digitChar n]
               else natStr (n / 10) ++ [digitChar (n % 10)] := by
  show natStrAux (n + 1) n = _
  simp only [natStrAux]
  by_cases h10 : n < 10
  · simp [h10]
  · have hdiv : n / 10 < n := Nat.div_lt_self (by omega) (by omega)
    simp only [h10, if_false]
    rw [natStrAux_congr n (n / 10 + 1) (n / 10) (by omega) (by omega)]
    rfl

lemma natStr_ne_nil (n : ℕ) : natStr n ≠ [] := by
  rw [natStr_eq]
  by_cases h10 : n < 10 <;> simp [h10]

lemma natStr_digits (n : ℕ) : ∀ c ∈ natStr n, isDig c = true := by
  induction n using Nat.strong_induction_on with
  | _ n ih =>
    rw [natStr_eq]
    by_cases h10 : n < 10
    · simp only [h10, if_true, List.mem_singleton]
      intro c hc
      subst hc
      exact isDig_digitChar h10
    · have hdiv : n / 10 < n := Nat.div_lt_self (by omega) (by omega)
      simp only [h10, if_false, List.mem_append, List.mem_singleton]
      intro c hc
      rcases hc with hc | hc
      · exact ih (n / 10) hdiv c hc
      · subst hc
        exact isDig_digitChar (Nat.mod_lt _ (by omega))

lemma natVal_natStr (n : ℕ) : natVal (natStr n) = n := by
  induction n using Nat.strong_induction_on with
  | _ n ih =>
    rw [natStr_eq]
    by_cases h10 : n < 10
    · simp only [h10, if_true]
      rw [show [digitChar n] = digitChar n :: [] from rfl, natVal_cons]
      simp [natVal, dval_digitChar h10]
    · have hdiv : n / 10 < n := Nat.div_lt_self (by omega) (by omega)
      simp only [h10, if_false]
      rw [natVal_append, ih (n / 10) hdiv]
      rw [show [digitChar (n % 10)] = digitChar (n % 10) :: [] from rfl, natVal_cons]
      simp [natVal, dval_digitChar (Nat.mod_lt n (by omega) : n % 10 < 10)]
      omega

lemma natStr_length_le (n k : ℕ) (hk : 1 ≤ k) (h : n < 10 ^ k) :
    (natStr n).length ≤ k := by
  induction n using Nat.strong_induction_on generalizing k with
  | _ n ih =>
    rw [natStr_eq]
    by_cases h10 : n < 10
    · simp [h10, hk]
    · have hdiv : n / 10 < n := Nat.div_lt_self (by omega) (by omega)
      have hk2 : 2 ≤ k := by
        by_contra hcon
        have : k = 1 := by omega
        subst this
        simp at h
        omega
      have hlt : n / 10 < 10 ^ (k - 1) := by
        rw [Nat.div_lt_iff_lt_mul (by omega : 0 < 10)]
        calc n < 10 ^ k := h
        _ = 10 ^ (k - 1) * 10 := by
            rw [← pow_succ]
            congr 1
            omega
      have := ih (n / 10) hdiv (k - 1) (by omega) hlt
      simp only [h10, if_false, List.length_append, List.length_singleton]
      omega

/-! zfill lemmas and digit-string reconstruction -/

lemma pyZfill_digits (w : ℕ) (s : List Char) (hne : s ≠ [])
    (h : ∀ c ∈ s, isDig c = true) :
    pyZfill w s = List.replicate (w - s.length) '0' ++ s := by
  unfold pyZfill
  by_cases hw : w ≤ s.length
  · rw [if_pos hw, Nat.sub_eq_zero_of_le hw]
    simp
  · rw [if_neg hw]
    cases s with
    | nil => exact absurd rfl hne
    | cons c r =>
      have hc : ¬(c = '-' ∨ c = '+') := isDig_not_sign (h c (by simp))
      show (if c = '-' ∨ c = '+' then c :: (List.replicate (w - (c :: r).length) '0' ++ r)
        else List.replicate (w - (c :: r).length) '0' ++ c :: r) = _
      rw [if_neg hc]

lemma pyZfill_length (w : ℕ) (s : List Char) :
    (pyZfill w s).length = max w s.length := by
  unfold pyZfill
  by_cases hw : w ≤ s.length
  · rw [if_pos hw]
    omega
  · rw [if_neg hw]
    cases s with
    | nil =>
      show (List.replicate w '0').length = _
      simp only [List.length_replicate, List.length_nil]
      omega
    | cons c r =>
      show (if c = '-' ∨ c = '+' then c :: (List.replicate (w - (c :: r).length) '0' ++ r)
        else List.replicate (w - (c :: r).length) '0' ++ c :: r).length = _
      by_cases hc : c = '-' ∨ c = '+'
      · rw [if_pos hc]
        simp only [List.length_cons, List.length_append, List.length_replicate] at hw ⊢
        omega
      · rw [if_neg hc]
        simp only [List.length_cons, List.length_append, List.length_replicate] at hw ⊢
        omega

lemma zfill_natStr_spec (k n : ℕ) (hk : 1 ≤ k) (h : n < 10 ^ k) :
    (pyZfill k (natStr n)).length = k ∧
    (∀ c ∈ pyZfill k (natStr n), isDig c = true) ∧
    natVal (pyZfill k (natStr n)) = n := by
  have hlen : (natStr n).length ≤ k := natStr_length_le n k hk h
  rw [pyZfill_digits k (natStr n) (natStr_ne_nil n) (natStr_digits n)]
  refine ⟨?_, ?_, ?_⟩
  · simp [List.length_append, List.length_replicate]
    omega
  · intro c hc
    rcases List.mem_append.mp hc with hc | hc
    · rw [List.eq_of_mem_replicate hc]
      decide
    · exact natStr_digits n c hc
  · rw [natVal_append, natVal_replicate_zero, natVal_natStr]
    ring

lemma mul_add_inj {B a b x y : ℕ} (hB : 0 < B) (hx : x < B) (hy : y < B)
    (h : a * B + x = b * B + y) : a = b ∧ x = y := by
  have ha : (a * B + x) / B = a := by
    rw [Nat.mul_comm a B, Nat.mul_add_div hB]
    simp [Nat.div_eq_of_lt hx]
  have hb : (b * B + y) / B = b := by
    rw [Nat.mul_comm b B, Nat.mul_add_div hB]
    simp [Nat.div_eq_of_lt hy]
  have hab : a = b := by rw [← ha, ← hb, h]
  subst hab
  exact ⟨rfl, by omega⟩

lemma natVal_inj (s₁ s₂ : List Char) (h1 : ∀ c ∈ s₁, isDig c = true)
    (h2 : ∀ c ∈ s₂, isDig c = true) (hlen : s₁.length = s₂.length)
    (hv : natVal s₁ = natVal s₂) : s₁ = s₂ := by
  induction s₁ generalizing s₂ with
  | nil =>
    cases s₂ with
    | nil => rfl
    | cons c r => simp at hlen
  | cons c t ih =>
    cases s₂ with
    | nil => simp at hlen
    | cons c₂ t₂ =>
      simp only [List.length_cons] at hlen
      have hlen2 : t.length = t₂.length := by omega
      rw [natVal_cons, natVal_cons, hlen2] at hv
      have hb1 : natVal t < 10 ^ t₂.length := by
        rw [← hlen2]
        exact natVal_lt t (fun x hx => h1 x (by simp [hx]))
      have hb2 : natVal t₂ < 10 ^ t₂.length :=
        natVal_lt t₂ (fun x hx => h2 x (by simp [hx]))
      obtain ⟨hdv, htv⟩ := mul_add_inj (Nat.pos_pow_of_pos _ (by omega)) hb1 hb2 hv
      have hcc : c = c₂ := dval_inj (h1 c (by simp)) (h2 c₂ (by simp)) hdv
      have htt : t = t₂ :=
        ih t₂ (fun x hx => h1 x (by simp [hx])) (fun x hx => h2 x (by simp [hx])) hlen2 htv
      rw [hcc, htt]

lemma digits_zfill_id (ds : List Char) (hne : ds ≠ [])
    (h : ∀ c ∈ ds, isDig c = true) :
    pyZfill ds.length (natStr (natVal ds)) = ds := by
  have hk : 1 ≤ ds.length := by
    cases ds with
    | nil => exact absurd rfl hne
    | cons c r => simp
  have hlt : natVal ds < 10 ^ ds.length := natVal_lt ds h
  obtain ⟨hl, hd, hv⟩ := zfill_natStr_spec ds.length (natVal ds) hk hlt
  exact natVal_inj _ ds hd h (by rw [hl]) (by rw [hv])

/-! takeWhile / dropWhile on all-digit strings -/

lemma takeWhile_eq_self_of_all (p : Char → Bool) (s : List Char)
    (h : ∀ c ∈ s, p c = true) : s.takeWhile p = s := by
  induction s with
  | nil => rfl
  | cons c t ih =>
    simp only [List.takeWhile_cons, h c (by simp), if_true]
    rw [ih (fun x hx => h x (by simp [hx]))]

lemma dropWhile_eq_nil_of_all (p : Char → Bool) (s : List Char)
    (h : ∀ c ∈ s, p c = true) : s.dropWhile p = [] := by
  induction s with
  | nil => rfl
  | cons c t ih =>
    simp only [List.dropWhile_cons, h c (by simp), if_true]
    exact ih (fun x hx => h x (by simp [hx]))

lemma pyFloatCore_digits (ds : List Char) (hne : ds ≠ [])
    (h : ∀ c ∈ ds, isDig c = true) : pyFloatCore ds = some ((natVal ds : ℚ)) := by
  unfold pyFloatCore
  rw [takeWhile_eq_self_of_all isDig ds h, dropWhile_eq_nil_of_all isDig ds h]
  simp [hne]

lemma pyFloatRat_digits (ds : List Char) (hne : ds ≠ [])
    (h : ∀ c ∈ ds, isDig c = true) : pyFloatRat ds = some ((natVal ds : ℚ)) := by
  cases ds with
  | nil => exact absurd rfl hne
  | cons c r =>
    have hc := isDig_not_sign (h c (by simp))
    have hnp : ¬c = '+' := fun hcp => hc (Or.inr hcp)
    have hnm : ¬c = '-' := fun hcm => hc (Or.inl hcm)
    show (if c = '+' then pyFloatCore r
      else if c = '-' then (pyFloatCore r).map (fun q => -q)
      else pyFloatCore (c :: r)) = _
    rw [if_neg hnp, if_neg hnm]
    exact pyFloatCore_digits (c :: r) hne h

lemma pyFloat_digits (ds : List Char) (hne : ds ≠ [])
    (h : ∀ c ∈ ds, isDig c = true) : pyFloat ds = some (fl64 ((natVal ds : ℚ))) := by
  unfold pyFloat
  rw [pyFloatRat_digits ds hne h]
  rfl

lemma roundNE_intCast (m : ℤ) : roundNE ((m : ℚ)) = m := by
  unfold roundNE
  rw [Int.floor_intCast]
  norm_num

lemma findExpUp_spec : ∀ (fuel : ℕ) (a : ℚ) (e : ℤ) (pw : ℚ), pw = 2 ^ e →
    2 ^ e ≤ a → a < 2 ^ (e + (fuel : ℤ) + 1) →
    2 ^ (findExpUp fuel a e pw) ≤ a ∧ a < 2 ^ (findExpUp fuel a e pw + 1) := by
  intro fuel
  induction fuel with
  | zero =>
    intro a e pw hpw hlo hhi
    refine ⟨hlo, ?_⟩
    have he : e + ((0 : ℕ) : ℤ) + 1 = e + 1 := by push_cast; ring
    rw [he] at hhi
    exact hhi
  | succ fuel ih =>
    intro a e pw hpw hlo hhi
    have hpw1 : 2 * pw = 2 ^ (e + 1) := by
      rw [hpw, zpow_add_one₀ (by norm_num : (2 : ℚ) ≠ 0)]
      ring
    show 2 ^ (if 2 * pw ≤ a then findExpUp fuel a (e + 1) (2 * pw) else e) ≤ a ∧
      a < 2 ^ ((if 2 * pw ≤ a then findExpUp fuel a (e + 1) (2 * pw) else e) + 1)
    by_cases hcond : 2 * pw ≤ a
    · simp only [if_pos hcond]
      apply ih a (e + 1) (2 * pw) hpw1 (by rw [← hpw1]; exact hcond)
      have he : e + ((fuel + 1 : ℕ) : ℤ) + 1 = (e + 1) + (fuel : ℤ) + 1 := by
        push_cast
        ring
      rw [he] at hhi
      exact hhi
    · simp only [if_neg hcond]
      refine ⟨hlo, ?_⟩
      rw [← hpw1]
      exact lt_of_not_le hcond

lemma flBits_natCast (p n : ℕ) (hp : p ≤ 1200) (h1 : 1 ≤ n)
    (h2 : (n : ℚ) < 2 ^ ((p : ℤ) + 1)) : flBits p ((n : ℚ)) = n := by
  have hpos : (0 : ℚ) < (n : ℚ) := by exact_mod_cast h1
  have hne : ¬((n : ℚ) = 0) := ne_of_gt hpos
  unfold flBits
  rw [if_neg hne, if_pos hpos]
  unfold flBitsPos
  have ha1 : (1 : ℚ) ≤ (n : ℚ) := by exact_mod_cast h1
  have hfe : findExp ((n : ℚ)) = findExpUp 1200 ((n : ℚ)) 0 1 := by
    unfold findExp
    rw [if_pos ha1]
  have hbound : ((n : ℚ)) < 2 ^ ((0 : ℤ) + ((1200 : ℕ) : ℤ) + 1) := by
    calc ((n : ℚ)) < 2 ^ ((p : ℤ) + 1) := h2
    _ ≤ 2 ^ ((0 : ℤ) + ((1200 : ℕ) : ℤ) + 1) := by
        apply zpow_le_zpow_right₀ (by norm_num)
        push_cast
        omega
  have hspec := findExpUp_spec 1200 ((n : ℚ)) 0 1 (by norm_num)
    (by simpa using ha1) hbound
  rw [hfe]
  set e := findExpUp 1200 ((n : ℚ)) 0 1 with hedef
  obtain ⟨hlo, hhi⟩ := hspec
  have he0 : 0 ≤ e := by
    by_contra hcon
    push_neg at hcon
    have hle : (2 : ℚ) ^ (e + 1) ≤ 2 ^ (0 : ℤ) :=
      zpow_le_zpow_right₀ (by norm_num) (by omega)
    have : ((n : ℚ)) < 1 := by
      calc ((n : ℚ)) < 2 ^ (e + 1) := hhi
      _ ≤ 2 ^ (0 : ℤ) := hle
      _ = 1 := by norm_num
    linarith
  have hep : e ≤ (p : ℤ) := by
    by_contra hcon
    push_neg at hcon
    have hle : (2 : ℚ) ^ ((p : ℤ) + 1) ≤ 2 ^ e :=
      zpow_le_zpow_right₀ (by norm_num) (by omega)
    linarith
  set k : ℕ := ((p : ℤ) - e).toNat with hkdef
  have hk : (p : ℤ) - e = (k : ℤ) := by omega
  have hunit : (2 : ℚ) ^ (e - (p : ℤ)) = ((2 : ℚ) ^ k)⁻¹ := by
    rw [show e - (p : ℤ) = -((k : ℤ)) by omega, zpow_neg, zpow_natCast]
  have h2k : ((2 : ℚ)) ^ k ≠ 0 := by positivity
  have hdiv : ((n : ℚ)) / 2 ^ (e - (p : ℤ)) = (((n * 2 ^ k : ℕ)) : ℚ) := by
    rw [hunit, div_eq_mul_inv, inv_inv]
    push_cast
    ring
  rw [hdiv]
  have hint : (((n * 2 ^ k : ℕ)) : ℚ) = (((n * 2 ^ k : ℕ) : ℤ) : ℚ) := by
    push_cast
    ring
  rw [hint, roundNE_intCast, hunit]
  push_cast
  field_simp

lemma fl64_natCast (n : ℕ) (h : n < 2 ^ 53) : fl64 ((n : ℚ)) = n := by
  rcases Nat.eq_zero_or_pos n with h0 | h1
  · subst h0
    show flBits 52 ((0 : ℕ) : ℚ) = ((0 : ℕ) : ℚ)
    norm_num [flBits]
  · apply flBits_natCast 52 n (by omega) h1
    have hq : ((n : ℚ)) < 2 ^ (53 : ℕ) := by exact_mod_cast h
    calc ((n : ℚ)) < 2 ^ (53 : ℕ) := hq
    _ = 2 ^ (((52 : ℕ) : ℤ) + 1) := by
        rw [show ((52 : ℕ) : ℤ) + 1 = ((53 : ℕ) : ℤ) by norm_num, zpow_natCast]

/-! pyInt / pyStr on integral values -/

lemma pyInt_natCast (n : ℕ) : pyInt ((n : ℚ)) = (n : ℤ) := by
  unfold pyInt
  rw [if_neg (not_lt.mpr (by positivity : (0 : ℚ) ≤ (n : ℚ)))]
  simp

lemma pyStr_natCast (n : ℕ) : pyStr ((n : ℤ)) = natStr n := by
  unfold pyStr
  rw [if_neg (not_lt.mpr (by positivity : (0 : ℤ) ≤ (n : ℤ)))]
  simp

/-! Date parse / format round trip -/

lemma strftime_of_parseDate6 (f : List Char) (d : Date)
    (h : parseDate6 f = some d) : d.strftimeYMD = f := by
  unfold parseDate6 at h
  by_cases h1 : f.length = 6 ∧ f.all isDig
  case neg =>
    rw [if_neg h1] at h
    exact absurd h (by simp)
  rw [if_pos h1] at h
  simp only [] at h
  obtain ⟨hlen, hall⟩ := h1
  have hdig : ∀ c ∈ f, isDig c = true := by
    intro c hc
    exact List.all_eq_true.mp hall c hc
  by_cases h2 : 1 ≤ natVal ((f.drop 2).take 2) ∧ natVal ((f.drop 2).take 2) ≤ 12 ∧
      1 ≤ natVal (f.drop 4) ∧ natVal (f.drop 4) ≤
        daysInMonth (if natVal (f.take 2) ≤ 68 then 2000 + natVal (f.take 2)
          else 1900 + natVal (f.take 2)) (natVal ((f.drop 2).take 2))
  case neg =>
    rw [if_neg h2] at h
    exact absurd h (by simp)
  rw [if_pos h2] at h
  injection h with h
  subst h
  have hl1 : (f.take 2).length = 2 := by
    rw [List.length_take, hlen]
    omega
  have hl2 : ((f.drop 2).take 2).length = 2 := by
    rw [List.length_take, List.length_drop, hlen]
    omega
  have hl3 : (f.drop 4).length = 2 := by
    rw [List.length_drop, hlen]
  have hd1 : ∀ c ∈ f.take 2, isDig c = true :=
    fun c hc => hdig c (List.take_subset 2 f hc)
  have hd2 : ∀ c ∈ (f.drop 2).take 2, isDig c = true :=
    fun c hc => hdig c (List.drop_subset 2 f (List.take_subset 2 (f.drop 2) hc))
  have hd3 : ∀ c ∈ f.drop 4, isDig c = true :=
    fun c hc => hdig c (List.drop_subset 4 f hc)
  have hyy_lt : natVal (f.take 2) < 100 := by
    have := natVal_lt (f.take 2) hd1
    rw [hl1] at this
    exact this
  have hy100 : (if natVal (f.take 2) ≤ 68 then 2000 + natVal (f.take 2)
      else 1900 + natVal (f.take 2)) % 100 = natVal (f.take 2) := by
    split_ifs <;> omega
  unfold Date.strftimeYMD
  simp only [hy100]
  have p1 : pyZfill 2 (natStr (natVal (f.take 2))) = f.take 2 := by
    have := digits_zfill_id (f.take 2) (by rw [← List.length_pos_iff_ne_nil]; omega) hd1
    rw [hl1] at this
    exact this
  have p2 : pyZfill 2 (natStr (natVal ((f.drop 2).take 2))) = (f.drop 2).take 2 := by
    have := digits_zfill_id ((f.drop 2).take 2)
      (by rw [← List.length_pos_iff_ne_nil]; omega) hd2
    rw [hl2] at this
    exact this
  have p3 : pyZfill 2 (natStr (natVal (f.drop 4))) = f.drop 4 := by
    have := digits_zfill_id (f.drop 4) (by rw [← List.length_pos_iff_ne_nil]; omega) hd3
    rw [hl3] at this
    exact this
  rw [p1, p2, p3]
  have hsplit2 : (f.drop 2).take 2 ++ (f.drop 2).drop 2 = f.drop 2 :=
    List.take_append_drop 2 (f.drop 2)
  have hdrop4 : (f.drop 2).drop 2 = f.drop 4 := by
    rw [List.drop_drop]
  rw [List.append_assoc, ← hdrop4, hsplit2, List.take_append_drop]

/-- Claim C1 (amended): for every valid canonical 21-character OCC string
— symbol field equal to its own rstrip-then-ljust-to-6 normalization,
parseable date field, option-type character `'P'` or `'C'`, all-digit
strike field — *whose strike value is exactly representable in binary64*
(`fl64 (n / 1000) = n / 1000` for the strike field value `n`), decoding
succeeds and re-encoding the decoded record returns the original string.
Without the representability restriction the float round trip can
perturb the strike field (see the counterexample). -/
theorem roundtrip_of_representable_strike (s : List Char)
    (hlen : s.length = 21)
    (hsym : _pad_symbol (pyRstrip (s.take 6)) = s.take 6)
    (hdate : (parseDate6 ((s.drop 6).take 6)).isSome = true)
    (htype : (s.drop 12).head? = some 'P' ∨ (s.drop 12).head? = some 'C')
    (hstrike : ∀ c ∈ s.drop 13, isDig c = true)
    (hexact : fl64 ((natVal (s.drop 13) : ℚ) / 1000) = (natVal (s.drop 13) : ℚ) / 1000) :
    ∃ r, _occ_to_tuple s = .ok r ∧
      _to_occ_str r.symbol r.expiry r.is_put r.strike = s := by
  obtain ⟨d, hd⟩ := Option.isSome_iff_exists.mp hdate
  obtain ⟨c, hc, hPC⟩ : ∃ c, (s.drop 12).head? = some c ∧ (c = 'P' ∨ c = 'C') := by
    rcases htype with h | h
    exacts [⟨'P', h, Or.inl rfl⟩, ⟨'C', h, Or.inr rfl⟩]
  have hlen13 : (s.drop 13).length = 8 := by rw [List.length_drop, hlen]
  have hne13 : s.drop 13 ≠ [] := by
    rw [← List.length_pos_iff_ne_nil]
    omega
  have hfl : pyFloat (s.drop 13) = some (fl64 ((natVal (s.drop 13) : ℚ))) :=
    pyFloat_digits _ hne13 hstrike
  have hn8 : natVal (s.drop 13) < 10 ^ 8 := by
    have := natVal_lt (s.drop 13) hstrike
    rw [hlen13] at this
    exact this
  have hfix : fl64 ((natVal (s.drop 13) : ℚ)) = ((natVal (s.drop 13) : ℚ)) :=
    fl64_natCast _ (by omega)
  have hsval : fl64 (fl64 ((natVal (s.drop 13) : ℚ)) / 1000) =
      ((natVal (s.drop 13) : ℚ)) / 1000 := by
    rw [hfix, hexact]
  refine ⟨⟨pyRstrip (s.take 6), d, c == 'P',
    fl64 (fl64 ((natVal (s.drop 13) : ℚ)) / 1000)⟩, ?_, ?_⟩
  · unfold _occ_to_tuple
    rw [hc, hd, hfl]
  · show _pad_symbol (pyRstrip (s.take 6)) ++ d.strftimeYMD ++ [_to_otype (c == 'P')] ++
      _strike_to_str (fl64 (fl64 ((natVal (s.drop 13) : ℚ)) / 1000)) = s
    rw [hsym, strftime_of_parseDate6 _ _ hd]
    have htypechar : _to_otype (c == 'P') = c := by
      rcases hPC with h | h <;> subst h <;> rfl
    rw [htypechar]
    have hstr : _strike_to_str (fl64 (fl64 ((natVal (s.drop 13) : ℚ)) / 1000)) =
        s.drop 13 := by
      unfold _strike_to_str
      rw [hsval]
      have hq : ((natVal (s.drop 13) : ℚ) / 1000) * 1000 = ((natVal (s.drop 13) : ℚ)) :=
        div_mul_cancel₀ _ (by norm_num)
      rw [hq, hfix, pyInt_natCast, pyStr_natCast]
      have hz := digits_zfill_id (s.drop 13) hne13 hstrike
      rw [hlen13] at hz
      exact hz
    rw [hstr]
    have h12 : s.drop 12 = c :: s.drop 13 := by
      have hne12 : s.drop 12 ≠ [] := by
        rw [← List.length_pos_iff_ne_nil, List.length_drop, hlen]
        omega
      cases h12e : s.drop 12 with
      | nil => exact absurd h12e hne12
      | cons a t =>
        rw [h12e] at hc
        injection hc with hc
        subst hc
        have ht : t = s.drop 13 := by
          have e1 : s.drop 13 = (s.drop 12).drop 1 := by
            rw [List.drop_drop]
          rw [e1, h12e]
          rfl
        rw [ht]
    have e3 : [c] ++ s.drop 13 = s.drop 12 := by
      rw [h12]
      rfl
    have e2 : (s.drop 6).drop 6 = s.drop 12 := by
      rw [List.drop_drop]
    calc s.take 6 ++ (s.drop 6).take 6 ++ [c] ++ s.drop 13
        = s.take 6 ++ ((s.drop 6).take 6 ++ ([c] ++ s.drop 13)) := by
          simp [List.append_assoc]
      _ = s.take 6 ++ ((s.drop 6).take 6 ++ (s.drop 6).drop 6) := by rw [e3, ← e2]
      _ = s.take 6 ++ s.drop 6 := by rw [List.take_append_drop]
      _ = s := List.take_append_drop 6 s

/-- Claim C2 (amended): `_occ_to_tuple` performs no length-21 check.  It
succeeds exactly when the input has at least 13 characters, the date
field (characters 6–11) parses as `%y%m%d`, and the strike field
(characters 13 onward) parses as a float; inputs of length 12 or less
fail with `IndexError` rather than a format error, and 20-character
inputs with valid date and strike fields decode successfully. -/
theorem decode_failure_characterization (s : List Char) :
    (∃ r, _occ_to_tuple s = .ok r) ↔
    (13 ≤ s.length ∧ (parseDate6 ((s.drop 6).take 6)).isSome = true ∧
     (pyFloat (s.drop 13)).isSome = true) := by
  unfold _occ_to_tuple
  cases hh : (s.drop 12).head? with
  | none =>
    have hlen : s.length ≤ 12 := by
      rw [List.head?_eq_none_iff, List.drop_eq_nil_iff] at hh
      exact hh
    constructor
    · rintro ⟨r, hr⟩
      exact absurd hr (by simp)
    · rintro ⟨h13, -, -⟩
      omega
  | some c =>
    have h13 : 13 ≤ s.length := by
      have hne : s.drop 12 ≠ [] := by
        intro he
        rw [he] at hh
        simp at hh
      rw [← List.length_pos_iff_ne_nil, List.length_drop] at hne
      omega
    cases hdd : parseDate6 ((s.drop 6).take 6) with
    | none =>
      simp [h13]
    | some d =>
      cases hff : pyFloat (s.drop 13) with
      | none => simp [h13]
      | some q => simp [h13]

/-- Claim C4 (amended): `_to_occ_str` never raises a `RangeError` (it is a
total function).  For records whose symbol has at most 6 characters,
whose date fields are two-digit-formattable, and whose truncated
`strike * 1000` lies in `[0, 99999999]`, the result has exactly 21
characters; outside that range the function still returns a string, of
some other length. -/
theorem encode_in_range_length_21 (symbol : List Char) (d : Date) (b : Bool) (strike : ℚ)
    (hs : symbol.length ≤ 6) (hm : d.month ≤ 99) (hd2 : d.day ≤ 99)
    (h0 : 0 ≤ pyInt (fl64 (strike * 1000))) (h1 : pyInt (fl64 (strike * 1000)) ≤ 99999999) :
    (_to_occ_str symbol d b strike).length = 21 := by
  have e1 : (pyZfill 2 (natStr (d.year % 100))).length = 2 := by
    rw [pyZfill_length]
    have := natStr_length_le (d.year % 100) 2 (by omega)
      (by have := Nat.mod_lt d.year (show 0 < 100 by omega); omega)
    omega
  have e2 : (pyZfill 2 (natStr d.month)).length = 2 := by
    rw [pyZfill_length]
    have := natStr_length_le d.month 2 (by omega) (by omega)
    omega
  have e3 : (pyZfill 2 (natStr d.day)).length = 2 := by
    rw [pyZfill_length]
    have := natStr_length_le d.day 2 (by omega) (by omega)
    omega
  have e4 : (pyZfill 8 (pyStr (pyInt (fl64 (strike * 1000))))).length = 8 := by
    have hps : pyStr (pyInt (fl64 (strike * 1000))) =
        natStr (pyInt (fl64 (strike * 1000))).toNat := by
      unfold pyStr
      rw [if_neg (not_lt.mpr h0)]
    rw [pyZfill_length, hps]
    have hlt : (pyInt (fl64 (strike * 1000))).toNat < 10 ^ 8 := by
      have : (10 : ℕ) ^ 8 = 100000000 := by norm_num
      omega
    have := natStr_length_le _ 8 (by omega) hlt
    omega
  unfold _to_occ_str _pad_symbol pyLjust Date.strftimeYMD _strike_to_str
  simp only [List.length_append, List.length_replicate, List.length_singleton]
  omega

/-- Claim C7: with an explicitly supplied reference date `asOf`,
`is_expired` marks element `i` expired exactly when its expiry is
chronologically strictly earlier than `asOf`; in particular an expiry
equal to `asOf` is not expired and any earlier expiry (such as the
previous day) is expired. -/
theorem is_expired_strict_lt (a : OccArray) (asOf today : Date) (i : ℕ)
    (h : i < a.data.length) (h2 : i < (a.is_expired (some asOf) today).length) :
    (a.is_expired (some asOf) today).get ⟨i, h2⟩ = true ↔
      (a.data.get ⟨i, h⟩).expiry.key < asOf.key := by
  have hmap : a.is_expired (some asOf) today =
      a.data.map (fun r => dateLtB r.expiry asOf) := rfl
  rw [List.get_of_eq hmap, List.get_map]
  simp [dateLtB]

/-- Claim C10: every read/query operation — scalar access, slicing,
`isna`, `is_call`, `is_put`, `is_expired`, `nbytes`, `copy` and
concatenation — returns the operated-on store with its record buffer
unchanged; results are produced as fresh values only. -/
theorem read_ops_leave_buffer_unchanged (a : OccArray) (op : ReadOp) :
    (a.runOp op).2 = a := by
  cases op <;> rfl

/-! Concrete witnesses and counterexamples -/

set_option maxRecDepth 2000

/-- Witness for C1 (amended): the round trip evaluated at the concrete
canonical string `"AAPL  200625P00125000"`, whose strike 125.0 is
exactly representable in binary64. -/
theorem roundtrip_of_representable_strike_witness :
    (String.toList "AAPL  200625P00125000").length = 21 ∧
    fl64 ((natVal ((String.toList "AAPL  200625P00125000").drop 13) : ℚ) / 1000) =
      (natVal ((String.toList "AAPL  200625P00125000").drop 13) : ℚ) / 1000 ∧
    ∃ r, _occ_to_tuple (String.toList "AAPL  200625P00125000") = .ok r ∧
      _to_occ_str r.symbol r.expiry r.is_put r.strike =
        String.toList "AAPL  200625P00125000" :=
  ⟨by decide, by with_unfolding_all rfl,
    roundtrip_of_representable_strike _ (by decide) (by decide) (by decide)
      (Or.inl (by decide)) (by decide) (by with_unfolding_all rfl)⟩

/-- Counterexample for C1 as stated: `"AAPL  200625C00001013"` is a valid
canonical 21-character string (normalized symbol, all-digit strike
field, strike 1.013 has exactly 3 decimal digits), yet
`encode(decode(s))` returns `"AAPL  200625C00001012"`: binary64 rounds
`float("00001013")/1000` below 1.013, the multiplication by 1000 rounds
to 1012.9999999999999, and `int()` truncates to 1012. -/
theorem roundtrip_float_truncation_cex :
    (String.toList "AAPL  200625C00001013").length = 21 ∧
    _pad_symbol (pyRstrip ((String.toList "AAPL  200625C00001013").take 6)) =
      (String.toList "AAPL  200625C00001013").take 6 ∧
    (∀ c ∈ (String.toList "AAPL  200625C00001013").drop 13, isDig c = true) ∧
    (_occ_to_tuple (String.toList "AAPL  200625C00001013")).map
      (fun r => _to_occ_str r.symbol r.expiry r.is_put r.strike) =
      .ok (String.toList "AAPL  200625C00001012") ∧
    String.toList "AAPL  200625C00001012" ≠ String.toList "AAPL  200625C00001013" :=
  ⟨by decide, by decide, by decide, by with_unfolding_all rfl, by decide⟩

/-- Counterexample for C2 as stated: this 20-character input decodes
successfully (symbol AAPL, expiry 2020-06-25, strike 12.5) instead of
failing, because `_occ_to_tuple` never checks the length. -/
theorem decode_20char_ok_cex :
    _occ_to_tuple (String.toList "AAPL  200625C0012500") =
      .ok ⟨String.toList "AAPL", ⟨2020, 6, 25⟩, false, 25 / 2⟩ := by
  with_unfolding_all rfl

/-- C3: the all-zero null sentinel — empty symbol, epoch expiry, call
flag, strike 0 — is produced by decoding `"      700101C00000000"`, yet
`isna` reports `false` for it: the numpy comparison `symbol == 0` never
holds for a unicode field, so `isna` cannot detect the sentinel. -/
theorem isna_never_detects_sentinel :
    _occ_to_tuple (String.toList "      700101C00000000") =
      .ok ⟨[], ⟨1970, 1, 1⟩, false, 0⟩ ∧
    OccArray.isna ⟨[⟨[], ⟨1970, 1, 1⟩, false, 0⟩]⟩ = [false] :=
  ⟨by with_unfolding_all rfl, by with_unfolding_all rfl⟩

/-- Counterexample for C4 as stated: at strike 100000 (so
`strike * 1000 = 10^8`, outside the encodable range) `_to_occ_str`
raises nothing and returns a 22-character string. -/
theorem encode_out_of_range_no_error_cex :
    _to_occ_str (String.toList "AAPL") ⟨2020, 6, 25⟩ false 100000 =
      String.toList "AAPL  200625C100000000" ∧
    (String.toList "AAPL  200625C100000000").length = 22 :=
  ⟨by with_unfolding_all rfl, by decide⟩

/-- Witness for C4 (amended) at a concrete in-range record. -/
theorem encode_in_range_length_21_witness :
    (String.toList "AAPL").length ≤ 6 ∧ 0 ≤ pyInt (fl64 ((125 : ℚ) * 1000)) ∧
    pyInt (fl64 ((125 : ℚ) * 1000)) ≤ 99999999 ∧
    (_to_occ_str (String.toList "AAPL") ⟨2020, 6, 25⟩ false 125).length = 21 :=
  ⟨by decide, by with_unfolding_all decide, by with_unfolding_all decide,
    encode_in_range_length_21 _ _ false _ (by decide) (by decide) (by decide)
      (by with_unfolding_all decide) (by with_unfolding_all decide)⟩

/-- C5: `OccAccessor.__init__` computes `_validate` (which merely returns
a boolean) and discards the result, so constructing the accessor over a
non-OCC-typed series succeeds instead of raising `TypeError`. -/
theorem accessor_construction_never_raises :
    OccAccessor._validate ⟨[], [], none, PdDtype.int64⟩ = false ∧
    OccAccessor.ofSeries ⟨[], [], none, PdDtype.int64⟩ = .ok ⟨[], [], none⟩ :=
  ⟨rfl, rfl⟩

/-- Counterexample for C6 as stated: the spec's literal example string
(23 characters long) decodes with strike 500012.5, not 125.000. -/
theorem decode_spec_example_string_cex :
    _occ_to_tuple (String.toList "AAPL  20062500500012500") =
      .ok ⟨String.toList "AAPL", ⟨2020, 6, 25⟩, false, 1000025 / 2⟩ ∧
    ¬((1000025 / 2 : ℚ) = 125) :=
  ⟨by with_unfolding_all rfl, by with_unfolding_all decide⟩

/-- Claim C6 (amended): on the well-formed 21-character string
`"AAPL  200625C00125000"`, decode returns symbol AAPL, expiry
2020-06-25, a call, strike 125.000, and encode maps that record back to
the original string. -/
theorem decode_encode_aapl_example :
    _occ_to_tuple (String.toList "AAPL  200625C00125000") =
      .ok ⟨String.toList "AAPL", ⟨2020, 6, 25⟩, false, 125⟩ ∧
    _to_occ_str (String.toList "AAPL") ⟨2020, 6, 25⟩ false 125 =
      String.toList "AAPL  200625C00125000" :=
  ⟨by with_unfolding_all rfl, by with_unfolding_all rfl⟩

/-- Witness for C7 at a concrete store whose single element expires on the
reference date itself. -/
theorem is_expired_strict_lt_witness :
    ((OccArray.mk [⟨String.toList "AAPL", ⟨2020, 6, 25⟩, false, 125⟩]).is_expired
        (some ⟨2020, 6, 25⟩) ⟨2026, 1, 1⟩).get ⟨0, by decide⟩ = true ↔
      ((OccArray.mk [⟨String.toList "AAPL", ⟨2020, 6, 25⟩, false, 125⟩]).data.get
        ⟨0, by decide⟩).expiry.key < (⟨2020, 6, 25⟩ : Date).key :=
  is_expired_strict_lt _ _ _ 0 (by decide) (by decide)

/-- C8: concatenating two one-element stores raises: `_concat_same_type`
feeds the concatenated record buffer back through `OccArray.__init__`,
which tries to decode each record as a string.  The stores themselves
arise from a successful decode. -/
theorem concat_raises_on_nonempty :
    OccArray.init [PyVal.str (String.toList "AAPL  200625C00125000")] =
      .ok ⟨[⟨String.toList "AAPL", ⟨2020, 6, 25⟩, false, 125⟩]⟩ ∧
    OccArray._concat_same_type [⟨[⟨String.toList "AAPL", ⟨2020, 6, 25⟩, false, 125⟩]⟩,
      ⟨[⟨String.toList "AAPL", ⟨2020, 6, 25⟩, false, 125⟩]⟩] = .error .recordAsString :=
  ⟨by with_unfolding_all rfl, by with_unfolding_all rfl⟩

/-- C9: copying a one-element store raises for either value of the `deep`
flag: `copy` passes the copied record buffer back through
`OccArray.__init__`, which tries to decode each record as a string. -/
theorem copy_raises_on_nonempty :
    OccArray.init [PyVal.str (String.toList "AAPL  200625C00125000")] =
      .ok ⟨[⟨String.toList "AAPL", ⟨2020, 6, 25⟩, false, 125⟩]⟩ ∧
    OccArray.copy ⟨[⟨String.toList "AAPL", ⟨2020, 6, 25⟩, false, 125⟩]⟩ false =
      .error .recordAsString ∧
    OccArray.copy ⟨[⟨String.toList "AAPL", ⟨2020, 6, 25⟩, false, 125⟩]⟩ true =
      .error .recordAsString :=
  ⟨by with_unfolding_all rfl, by with_unfolding_all rfl, by with_unfolding_all rfl⟩
